import Mathlib

/-!
# Verification of the emlite-js handle table and value-marshaling ABI

Shallow embedding of `src/emlite.js`: the reference-counted bidirectional
`HandleTable`, the reserved-singleton initialization
(`emlite_init_handle_table`), the guest-facing bridge operations
(`emlite_val_*`), error normalization (`normalizeThrown`), and the string
transcoding paths (`cStr` / `cStrUtf16` / `copyStringToWasm` /
`copyStringToWasmUtf16`).

Host (JavaScript) values are modelled as a closed inductive `JSVal`.
Numbers are modelled by their integral values (every number the bridge
constructs via the integer constructors is integral); object, function and
symbol identity is modelled by a numeric id.  Objects additionally carry
the optional `name` / `code` properties read by `normalizeThrown`
(arbitrary further properties and property mutation are outside the scope
of the claims).  JavaScript `Map` key equality (SameValueZero) on these
values coincides with structural equality of `JSVal`.
-/

namespace Emlite

/-- A host (JavaScript) value, as seen by the bridge. -/
inductive JSVal : Type where
  | null
  | undefined
  | boolean (b : Bool)
  /-- a JS number with integral value (the bridge's integer constructors
  only ever produce integral numbers) -/
  | num (n : Int)
  | bigint (n : Int)
  | str (s : String)
  /-- a symbol, identified by identity -/
  | sym (id : Nat)
  /-- a function, identified by identity -/
  | fn (id : Nat)
  /-- an object, identified by identity; `hasName`/`name` and
  `hasCode`/`code` model the presence and value of the `name` and `code`
  properties that `normalizeThrown` inspects -/
  | obj (id : Nat) (hasName : Bool) (name : JSVal) (hasCode : Bool) (code : JSVal)
  /-- an array of JS numbers: the bridge's `ArgumentList` convention only
  ever stores raw handle numbers in arrays (`emlite_val_push` pushes the
  handle integer itself); array identity and non-numeric elements are not
  needed by any claim -/
  | arr (elems : List Int)
  /-- an Error value: `message`, `name`, and the optional `code` and
  `cause` properties (a `false` flag models the property being absent) -/
  | error (message : String) (name : JSVal) (hasCode : Bool) (code : JSVal)
      (hasCause : Bool) (cause : JSVal)
deriving DecidableEq, Repr

/-- A handle-table entry: `{ value, refs }`.  `refs` is a JS number, so it
is modelled as an integer (it is decremented before the zero test). -/
structure Entry where
  value : JSVal
  refs : Int
deriving DecidableEq, Repr

/-- The handle table: forward map `_h2e`, reverse map `_v2h`, allocation
counter `_next`.  The JS `Map`s are modelled as association lists with
unique keys (every reachable table has unique keys since insertion
replaces an existing binding). -/
structure HandleTable where
  h2e : List (Nat × Entry)
  v2h : List (JSVal × Nat)
  next : Nat
deriving DecidableEq, Repr

/-- `Map.get` on the forward map. -/
def lookupH : List (Nat × Entry) → Nat → Option Entry
  | [], _ => none
  | (k, e) :: t, h => if k = h then some e else lookupH t h

/-- `Map.get` on the reverse map. -/
def lookupV : List (JSVal × Nat) → JSVal → Option Nat
  | [], _ => none
  | (v, h) :: t, w => if v = w then some h else lookupV t w

/-- `Map.set` on the forward map: replace an existing binding, else append. -/
def setH : List (Nat × Entry) → Nat → Entry → List (Nat × Entry)
  | [], k, e => [(k, e)]
  | (k', e') :: t, k, e => if k' = k then (k, e) :: t else (k', e') :: setH t k e

/-- `Map.set` on the reverse map. -/
def setV : List (JSVal × Nat) → JSVal → Nat → List (JSVal × Nat)
  | [], v, h => [(v, h)]
  | (v', h') :: t, v, h => if v' = v then (v, h) :: t else (v', h') :: setV t v h

/-- `Map.delete` on the forward map (keys are unique, so deleting the one
binding is removing every binding with that key). -/
def eraseH (l : List (Nat × Entry)) (h : Nat) : List (Nat × Entry) :=
  l.filter (fun q => q.1 != h)

/-- `Map.delete` on the reverse map. -/
def eraseV (l : List (JSVal × Nat)) (v : JSVal) : List (JSVal × Nat) :=
  l.filter (fun q => q.1 != v)

namespace HandleTable

/-- `_newEntry(value)`: allocate the next handle, register both mappings. -/
def newEntry (T : HandleTable) (v : JSVal) : Nat × HandleTable :=
  (T.next,
    { h2e := setH T.h2e T.next ⟨v, 1⟩
      v2h := setV T.v2h v T.next
      next := T.next + 1 })

/-- `add(value)`: dedup through the reverse map (bumping the refcount of
the existing entry) or create a new entry. -/
def add (T : HandleTable) (v : JSVal) : Nat × HandleTable :=
  match lookupV T.v2h v with
  | some h =>
    (h,
      match lookupH T.h2e h with
      | some e => { T with h2e := setH T.h2e h ⟨e.value, e.refs + 1⟩ }
      | none => T)   -- ill-formed table: JS would fault on `++undefined.refs`
  | none => T.newEntry v

/-- `decRef(h)`: returns `(removed-or-found, table)`; decrementing to zero
removes both mappings. -/
def decRef (T : HandleTable) (h : Nat) : Bool × HandleTable :=
  match lookupH T.h2e h with
  | none => (false, T)
  | some e =>
    if e.refs - 1 = 0 then
      (true, { T with h2e := eraseH T.h2e h, v2h := eraseV T.v2h e.value })
    else
      (true, { T with h2e := setH T.h2e h ⟨e.value, e.refs - 1⟩ })

/-- `incRef(h)`: bump the refcount if the entry exists. -/
def incRef (T : HandleTable) (h : Nat) : HandleTable :=
  match lookupH T.h2e h with
  | some e => { T with h2e := setH T.h2e h ⟨e.value, e.refs + 1⟩ }
  | none => T

/-- `get(h)`: `this._h2e.get(h)?.value` — the JS result is `undefined`
both for a missing entry and for an entry whose value is `undefined`. -/
def get (T : HandleTable) (h : Nat) : JSVal :=
  match lookupH T.h2e h with
  | some e => e.value
  | none => JSVal.undefined

/-- Internal accessor used to state *absence* of an entry (the JS surface
cannot distinguish this from a live `undefined`, which is claim C10). -/
def entry? (T : HandleTable) (h : Nat) : Option Entry :=
  lookupH T.h2e h

/-- Well-formedness of the reverse index actually used by the proofs:
every reverse binding `v ↦ h` has a live forward entry at `h` whose value
is `v`.  All tables reachable from the initial table satisfy this. -/
def WFb (T : HandleTable) : Bool :=
  T.v2h.all fun p =>
    match lookupH T.h2e p.2 with
    | some e => e.value == p.1
    | none => false

end HandleTable

/-- The empty table (`new HandleTable()`). -/
def emptyTable : HandleTable := ⟨[], [], 0⟩

/-- `globalThis`, pinned at handle 4. -/
def globalThisV : JSVal := .obj 0 false .undefined false .undefined

/-- `console`, pinned at handle 5. -/
def consoleV : JSVal := .obj 1 false .undefined false .undefined

/-- `Symbol("_EMLITE_RESERVED_")`, pinned at handle 6. -/
def reservedSym : JSVal := .sym 0

/-- `emlite_init_handle_table`: the seven reserved singletons are added in
order, so they receive handles 0..6. -/
def emlite_init_handle_table : HandleTable :=
  (((((((emptyTable.add .null).2.add .undefined).2.add
      (.boolean false)).2.add (.boolean true)).2.add
      globalThisV).2.add consoleV).2.add reservedSym).2

/-- The fixed singleton value reserved at handle `h ≤ 6`. -/
def reservedVal : Nat → JSVal
  | 0 => .null
  | 1 => .undefined
  | 2 => .boolean false
  | 3 => .boolean true
  | 4 => globalThisV
  | 5 => consoleV
  | _ => reservedSym

/-! ## 32/64-bit wire arithmetic -/

/-- JS `x >>> 0` (ToUint32) on an integral number, and
`BigInt.asUintN(32, ·)`: the value modulo `2^32`, in `[0, 2^32)`. -/
def toUint32 (x : Int) : Int := x % 4294967296

/-- JS `x | 0` (ToInt32) on an integral number, and
`BigInt.asIntN(32, ·)`: two's-complement wrap into `[-2^31, 2^31)`. -/
def toInt32 (x : Int) : Int :=
  if x % 4294967296 < 2147483648 then x % 4294967296
  else x % 4294967296 - 4294967296

/-- JS truthiness: the falsy values.  (`NaN` is outside the integral-number
model; no claim constructs it.) -/
def jsFalsy : JSVal → Bool
  | .null => true
  | .undefined => true
  | .boolean b => !b
  | .num n => n == 0
  | .bigint n => n == 0
  | .str s => s.isEmpty
  | _ => false

/-- `val | 0` on an arbitrary host value (ToNumber then ToInt32).
Numeric-string parsing is not modelled (no claim extracts an int from a
string); `undefined`/objects coerce through `NaN`, which `| 0` maps to 0. -/
def jsToInt32 : JSVal → Int
  | .num n => toInt32 n
  | .boolean b => cond b 1 0
  | _ => 0

/-- `val >>> 0` on an arbitrary host value, analogously. -/
def jsToUint32 : JSVal → Int
  | .num n => toUint32 n
  | .boolean b => cond b 1 0
  | _ => 0

/-! ## Value construction / extraction operations -/

/-- `emlite_val_make_bool`: `EMLITE_VALMAP.add(!!value)` (the wire value
is an i32). -/
def emlite_val_make_bool (T : HandleTable) (value : Int) : Nat × HandleTable :=
  T.add (.boolean (value != 0))

/-- `emlite_val_make_int`: `EMLITE_VALMAP.add(value | 0)`. -/
def emlite_val_make_int (T : HandleTable) (value : Int) : Nat × HandleTable :=
  T.add (.num (toInt32 value))

/-- `emlite_val_make_uint`: `EMLITE_VALMAP.add(value >>> 0)`. -/
def emlite_val_make_uint (T : HandleTable) (value : Int) : Nat × HandleTable :=
  T.add (.num (toUint32 value))

/-- `emlite_val_make_bigint`: `EMLITE_VALMAP.add(BigInt(value))`. -/
def emlite_val_make_bigint (T : HandleTable) (value : Int) : Nat × HandleTable :=
  T.add (.bigint value)

/-- `emlite_val_make_biguint`: the signed i64 wire value is renormalized
into `[0, 2^64-1]` by adding `2^64` when negative. -/
def emlite_val_make_biguint (T : HandleTable) (value : Int) : Nat × HandleTable :=
  T.add (.bigint (if value < 0 then value + 18446744073709551616 else value))

/-- `emlite_val_get_value_int`: a BigInt-stored value goes through
`BigInt.asIntN(32, ·)` (low 32 bits, signed, no precision loss); anything
else through `val | 0`. -/
def emlite_val_get_value_int (T : HandleTable) (n : Nat) : Int :=
  match T.get n with
  | .bigint v => toInt32 v
  | v => jsToInt32 v

/-- `emlite_val_get_value_uint`: a BigInt-stored value goes through
`BigInt.asUintN(32, ·)`; anything else through `val >>> 0`. -/
def emlite_val_get_value_uint (T : HandleTable) (n : Nat) : Int :=
  match T.get n with
  | .bigint v => toUint32 v
  | v => jsToUint32 v

/-- `emlite_val_not`: `!EMLITE_VALMAP.get(arg)`. -/
def emlite_val_not (T : HandleTable) (h : Nat) : Bool :=
  jsFalsy (T.get h)

/-- `emlite_val_is_string`: `typeof obj === "string"` (boxed `String`
objects are not modelled). -/
def emlite_val_is_string (T : HandleTable) (h : Nat) : Bool :=
  match T.get h with
  | .str _ => true
  | _ => false

/-! ## Reference counting bridge and reset -/

/-- `emlite_val_inc_ref`. -/
def emlite_val_inc_ref (T : HandleTable) (h : Nat) : HandleTable :=
  T.incRef h

/-- `emlite_val_dec_ref`: `if (h > 6) EMLITE_VALMAP.decRef(h)` — the
reserved-handle guard lives here, not in `HandleTable.decRef`. -/
def emlite_val_dec_ref (T : HandleTable) (h : Nat) : HandleTable :=
  if 6 < h then (T.decRef h).2 else T

/-- One iteration of `emlite_reset_object_map`'s loop body at a key/entry
pair of the snapshot: entries with handle `> 6` are removed from both
maps.  (The JS loop reads the entry from the live map, but keys are
unique and each key is only deleted at its own iteration, so the snapshot
entry is the live entry.) -/
def resetStep (acc : HandleTable) (p : Nat × Entry) : HandleTable :=
  if 6 < p.1 then
    { acc with h2e := eraseH acc.h2e p.1, v2h := eraseV acc.v2h p.2.value }
  else acc

/-- `emlite_reset_object_map`: sweep every entry above the reserved range;
`_next` is untouched. -/
def emlite_reset_object_map (T : HandleTable) : HandleTable :=
  T.h2e.foldl resetStep T

/-! ## Error normalization and the invocation bridge

Host dynamic dispatch (`Reflect.apply` / `Reflect.construct`) is
modelled as an oracle returning `Except JSVal JSVal`:
`.ok v` for a normal return `v`, `.error e` for a thrown value `e`. -/

/-- `String(v)`: default host string coercion.  Custom `toString`
overrides, symbol descriptions and function source text are outside the
model (fixed placeholder texts); integral-number printing matches JS in
the 32/64-bit ranges the bridge produces. -/
def jsToString : JSVal → String
  | .null => "null"
  | .undefined => "undefined"
  | .boolean b => cond b "true" "false"
  | .num n => toString n
  | .bigint n => toString n
  | .str s => s
  | .sym _ => "Symbol()"
  | .fn _ => "function () {}"
  | .obj _ _ _ _ _ => "[object Object]"
  | .arr es => String.intercalate "," (es.map (fun n => toString n))
  | .error m nm _ _ _ _ =>
    let n := match nm with
      | .undefined => "Error"
      | v => jsToString v
    if n = "" then m else if m = "" then n else n ++ ": " ++ m

/-- `normalizeThrown(e)`: an `Error` instance is returned unchanged; any
other thrown value is wrapped in `new Error(String(e))` with `name` and
`code` copied when the thrown value is an object carrying them, and the
thrown value attached as `cause`.  (The defensive
`new Error("Unknown JS exception")` fallback guards a throwing
`String(e)`, which the total `jsToString` cannot produce.) -/
def normalizeThrown (e : JSVal) : JSVal :=
  match e with
  | .error m nm hc c hca ca => .error m nm hc c hca ca
  | .obj id hn nv hc cv =>
    .error (jsToString (.obj id hn nv hc cv))
      (if hn then nv else .str "Error") hc cv true (.obj id hn nv hc cv)
  | v => .error (jsToString v) (.str "Error") false .undefined true v

/-- Is the value an Error instance (`e instanceof Error`)? -/
def isErrorVal : JSVal → Bool
  | .error _ _ _ _ _ _ => true
  | _ => false

/-- The `message` property of an Error value. -/
def errMessage : JSVal → Option String
  | .error m _ _ _ _ _ => some m
  | _ => none

/-- The `name` property of an Error value. -/
def errName : JSVal → Option JSVal
  | .error _ nm _ _ _ _ => some nm
  | _ => none

/-- The `code` property of an Error value, when present. -/
def errCode : JSVal → Option JSVal
  | .error _ _ true c _ _ => some c
  | _ => none

/-- The `cause` property of an Error value, when present. -/
def errCause : JSVal → Option JSVal
  | .error _ _ _ _ true c => some c
  | _ => none

/-- `Map.get` keyed by a host value (array elements are numbers; the only
live keys are the non-negative handle integers). -/
def HandleTable.getNum (T : HandleTable) (n : Int) : JSVal :=
  if 0 ≤ n then T.get n.toNat else .undefined

/-- Is the value an array (the only values with a `.map` method in the
model)? -/
def isArrVal : JSVal → Bool
  | .arr _ => true
  | _ => false

/-- The raw `TypeError` the host raises when
`EMLITE_VALMAP.get(argvRef).map(...)` is applied to a non-array value.
This happens *before* the `try` block of the invocation operations, so
it propagates uncaught across the boundary.  (The engine-generated
message text varies by runtime; a fixed representative is used, and no
claim inspects it.) -/
def argvFaultError : JSVal :=
  .error "EMLITE_VALMAP.get(argvRef).map is not a function"
    (.str "TypeError") false .undefined false .undefined

/-- `emlite_val_obj_call`: `EMLITE_VALMAP.get(argvRef).map(h => get(h))`
runs *before* the `try`, so a non-array argv raises a raw `TypeError`
that propagates uncaught (the `.error` result).  Only the
`Reflect.apply(target[method], target, args)` dispatch — the
`applyMethod` oracle, `.error` for a thrown value — is guarded: its
thrown value is normalized and registered as the result handle.  (The
method name arrives as a decoded `cStr` string; decoding is modelled
separately.) -/
def emlite_val_obj_call
    (applyMethod : JSVal → String → List JSVal → Except JSVal JSVal)
    (T : HandleTable) (objRef : Nat) (method : String) (argvRef : Nat) :
    Except JSVal (Nat × HandleTable) :=
  match T.get argvRef with
  | .arr es =>
    let target := T.get objRef
    let args := es.map T.getNum
    let ret :=
      match applyMethod target method args with
      | .ok v => v
      | .error e => normalizeThrown e
    .ok (T.add ret)
  | _ => .error argvFaultError

/-- `emlite_val_construct_new`: as `emlite_val_obj_call`, with
`Reflect.construct(target, args)` as the guarded dispatch. -/
def emlite_val_construct_new
    (construct : JSVal → List JSVal → Except JSVal JSVal)
    (T : HandleTable) (objRef : Nat) (argvRef : Nat) :
    Except JSVal (Nat × HandleTable) :=
  match T.get argvRef with
  | .arr es =>
    let target := T.get objRef
    let args := es.map T.getNum
    let ret :=
      match construct target args with
      | .ok v => v
      | .error e => normalizeThrown e
    .ok (T.add ret)
  | _ => .error argvFaultError

/-- `emlite_val_func_call`: as `emlite_val_obj_call`, with
`Reflect.apply(target, undefined, args)` as the guarded dispatch. -/
def emlite_val_func_call
    (applyFn : JSVal → List JSVal → Except JSVal JSVal)
    (T : HandleTable) (objRef : Nat) (argvRef : Nat) :
    Except JSVal (Nat × HandleTable) :=
  match T.get argvRef with
  | .arr es =>
    let target := T.get objRef
    let args := es.map T.getNum
    let ret :=
      match applyFn target args with
      | .ok v => v
      | .error e => normalizeThrown e
    .ok (T.add ret)
  | _ => .error argvFaultError

/-- The value registered at the result handle of a successful bridge
call (`none` when the call propagated a raw failure instead). -/
def resultValue : Except JSVal (Nat × HandleTable) → Option JSVal
  | .ok p => some (p.2.get p.1)
  | .error _ => none

/-! ## Guest memory and string transcoding

Guest linear memory is a byte store `Nat → Nat` (every value the bridge
writes is `< 256`); `emlite_malloc` is the guest-exported allocator,
present or not.  `TextEncoder`/`TextDecoder` over UTF-8, and the
`charCodeAt`/`utf-16le` paths, are modelled by executable codecs over the
string's scalar values / UTF-16 code units. -/

/-- The guest side of the bridge: allocator presence, the allocator
(result per requested size), and linear memory. -/
structure GuestMem where
  mallocPresent : Bool
  malloc : Nat → Nat
  mem : Nat → Nat

/-- Is the value a string (`typeof str === "string"`; boxed `String`
objects are not modelled)? -/
def isStringVal : JSVal → Bool
  | .str _ => true
  | _ => false

/-- Write a byte list at consecutive addresses. -/
def writeBytes : (Nat → Nat) → Nat → List Nat → (Nat → Nat)
  | m, _, [] => m
  | m, p, b :: bs => writeBytes (fun q => if q = p then b else m q) (p + 1) bs

/-- Read `len` bytes starting at `p`. -/
def readBytes (m : Nat → Nat) (p : Nat) : Nat → List Nat
  | 0 => []
  | len + 1 => m p :: readBytes m (p + 1) len

/-- UTF-8 encoding of one scalar value (`TextEncoder`). -/
def utf8Char (n : Nat) : List Nat :=
  if n < 0x80 then [n]
  else if n < 0x800 then [0xC0 + n / 0x40, 0x80 + n % 0x40]
  else if n < 0x10000 then
    [0xE0 + n / 0x1000, 0x80 + n / 0x40 % 0x40, 0x80 + n % 0x40]
  else
    [0xF0 + n / 0x40000, 0x80 + n / 0x1000 % 0x40, 0x80 + n / 0x40 % 0x40,
      0x80 + n % 0x40]

/-- UTF-8 encoding of a character list. -/
def utf8Encode : List Char → List Nat
  | [] => []
  | c :: cs => utf8Char c.toNat ++ utf8Encode cs

/-- `enc.encode(s)`. -/
def utf8Bytes (s : String) : List Nat := utf8Encode s.data

/-- Is `b` a UTF-8 continuation byte? -/
def isCont (b : Nat) : Bool := 0x80 ≤ b && b < 0xC0

/-- UTF-8 decoding (`dec.decode`, non-fatal: malformed input produces
U+FFFD replacement characters).  The decoder recurses on a fuel counter
(one unit per produced character, so a list's length is always enough
fuel); structural recursion on the fuel keeps the function reducible. -/
def utf8DecodeF : Nat → List Nat → List Char
  | _, [] => []
  | 0, _ :: _ => []
  | fuel + 1, b :: rest =>
    if b < 0x80 then Char.ofNat b :: utf8DecodeF fuel rest
    else if b < 0xC0 then Char.ofNat 0xFFFD :: utf8DecodeF fuel rest
    else if b < 0xE0 then
      match rest with
      | b2 :: r2 =>
        if isCont b2 then
          Char.ofNat ((b - 0xC0) * 0x40 + (b2 - 0x80)) :: utf8DecodeF fuel r2
        else Char.ofNat 0xFFFD :: utf8DecodeF fuel rest
      | [] => [Char.ofNat 0xFFFD]
    else if b < 0xF0 then
      match rest with
      | b2 :: b3 :: r3 =>
        if isCont b2 && isCont b3 then
          Char.ofNat ((b - 0xE0) * 0x1000 + (b2 - 0x80) * 0x40 + (b3 - 0x80)) ::
            utf8DecodeF fuel r3
        else Char.ofNat 0xFFFD :: utf8DecodeF fuel rest
      | _ => [Char.ofNat 0xFFFD]
    else
      match rest with
      | b2 :: b3 :: b4 :: r4 =>
        if isCont b2 && isCont b3 && isCont b4 then
          Char.ofNat ((b - 0xF0) * 0x40000 + (b2 - 0x80) * 0x1000 +
              (b3 - 0x80) * 0x40 + (b4 - 0x80)) :: utf8DecodeF fuel r4
        else Char.ofNat 0xFFFD :: utf8DecodeF fuel rest
      | _ => [Char.ofNat 0xFFFD]

/-- `dec.decode` over a byte list. -/
def utf8Decode (l : List Nat) : List Char := utf8DecodeF l.length l

/-- UTF-16 encoding of one scalar value (`charCodeAt` code units). -/
def utf16Char (n : Nat) : List Nat :=
  if n < 0x10000 then [n]
  else [0xD800 + (n - 0x10000) / 0x400, 0xDC00 + (n - 0x10000) % 0x400]

/-- The UTF-16 code units of a character list. -/
def utf16Encode : List Char → List Nat
  | [] => []
  | c :: cs => utf16Char c.toNat ++ utf16Encode cs

/-- The UTF-16 code units of a JS string (`str.charCodeAt(0..len-1)`;
`str.length` is the length of this list). -/
def utf16Units (s : String) : List Nat := utf16Encode s.data

/-- UTF-16 decoding over code units (`utf-16le` decoder, non-fatal:
unpaired surrogates produce U+FFFD), fuelled like `utf8DecodeF`. -/
def utf16DecodeF : Nat → List Nat → List Char
  | _, [] => []
  | 0, _ :: _ => []
  | fuel + 1, u :: rest =>
    if 0xD800 ≤ u ∧ u < 0xDC00 then
      match rest with
      | u2 :: r2 =>
        if 0xDC00 ≤ u2 ∧ u2 < 0xE000 then
          Char.ofNat (0x10000 + (u - 0xD800) * 0x400 + (u2 - 0xDC00)) ::
            utf16DecodeF fuel r2
        else Char.ofNat 0xFFFD :: utf16DecodeF fuel rest
      | [] => [Char.ofNat 0xFFFD]
    else if 0xDC00 ≤ u ∧ u < 0xE000 then
      Char.ofNat 0xFFFD :: utf16DecodeF fuel rest
    else Char.ofNat u :: utf16DecodeF fuel rest

/-- `dec_16.decode` over a code-unit list. -/
def utf16Decode (l : List Nat) : List Char := utf16DecodeF l.length l

/-- Split a byte list into little-endian 16-bit code units.  (All reads
below have even length, so the dangling-byte case is unreachable.) -/
def bytesToU16 : List Nat → List Nat
  | [] => []
  | [_] => []
  | b0 :: b1 :: rest => (b0 + b1 * 256) :: bytesToU16 rest

/-- Little-endian byte serialization of 16-bit code units (the effect of
the `_u16[i] = u` stores on the byte memory). -/
def u16leBytes : List Nat → List Nat
  | [] => []
  | u :: us => u % 256 :: u / 256 :: u16leBytes us

/-- `cStr(ptr, len)`: decode `len` bytes of guest memory as UTF-8. -/
def cStr (E : GuestMem) (ptr len : Nat) : String :=
  ⟨utf8Decode (readBytes E.mem ptr len)⟩

/-- `cStrUtf16(ptr, len)`: decode `len*2` bytes of guest memory as
`utf-16le`. -/
def cStrUtf16 (E : GuestMem) (ptr len : Nat) : String :=
  ⟨utf16Decode (bytesToU16 (readBytes E.mem ptr (len * 2)))⟩

/-- `copyStringToWasm(str)`: non-strings and falsy values (including the
empty string) return pointer 0; with the allocator present, allocate
`|utf8(str + "\0")|` bytes, throw on a null pointer, and write the
bytes; with the allocator absent, silently return 0.  `.error` models a
thrown `Error` with the given message. -/
def copyStringToWasm (E : GuestMem) (v : JSVal) :
    Except String (Nat × GuestMem) :=
  if jsFalsy v || !(isStringVal v) then .ok (0, E)
  else
    match v with
    | .str s =>
      if E.mallocPresent then
        let utf8 := utf8Bytes s ++ [0]
        let ptr := E.malloc utf8.length
        if ptr = 0 then .error "malloc failed in copyStringToWasm"
        else .ok (ptr, { E with mem := writeBytes E.mem ptr utf8 })
      else .ok (0, E)
    | _ => .ok (0, E)

/-- `copyStringToWasmUtf16(str)`: as the narrow path, but allocating
`(str.length + 1) * 2` bytes, additionally throwing on a misaligned
pointer, and storing the code units plus a null terminator through the
16-bit view. -/
def copyStringToWasmUtf16 (E : GuestMem) (v : JSVal) :
    Except String (Nat × GuestMem) :=
  if jsFalsy v || !(isStringVal v) then .ok (0, E)
  else
    match v with
    | .str s =>
      if E.mallocPresent then
        let units := utf16Units s
        let byteLength := (units.length + 1) * 2
        let ptr := E.malloc byteLength
        if ptr = 0 then .error "malloc failed in copyStringToWasmUtf16"
        else if ptr % 2 ≠ 0 then .error "UTF-16 string not properly aligned"
        else .ok (ptr,
          { E with mem := writeBytes E.mem ptr (u16leBytes (units ++ [0])) })
      else .ok (0, E)
    | _ => .ok (0, E)

/-! ## Association-list lemmas -/

theorem lookupH_setH_self (l : List (Nat × Entry)) (k : Nat) (e : Entry) :
    lookupH (setH l k e) k = some e := by
  induction l with
  | nil => simp [setH, lookupH]
  | cons p t ih =>
    by_cases hk : p.1 = k
    · simp [setH, hk, lookupH]
    · simp [setH, hk, lookupH, ih]

theorem lookupH_setH_ne (l : List (Nat × Entry)) (k : Nat) (e : Entry)
    (k' : Nat) (hne : k ≠ k') : lookupH (setH l k e) k' = lookupH l k' := by
  induction l with
  | nil => simp [setH, lookupH, hne]
  | cons p t ih =>
    by_cases hk : p.1 = k
    · simp [setH, hk, lookupH, hne]
    · simp [setH, hk, lookupH, ih]

theorem lookupV_setV_self (l : List (JSVal × Nat)) (v : JSVal) (h : Nat) :
    lookupV (setV l v h) v = some h := by
  induction l with
  | nil => simp [setV, lookupV]
  | cons p t ih =>
    by_cases hv : p.1 = v
    · simp [setV, hv, lookupV]
    · simp [setV, hv, lookupV, ih]

theorem lookupH_eraseH_self (l : List (Nat × Entry)) (k : Nat) :
    lookupH (eraseH l k) k = none := by
  induction l with
  | nil => simp [eraseH, lookupH]
  | cons p t ih =>
    by_cases hk : p.1 = k
    · simpa [eraseH, hk] using ih
    · simpa [eraseH, lookupH, hk] using ih

theorem lookupH_filter_ne (l : List (Nat × Entry)) (k h : Nat) (hne : h ≠ k) :
    lookupH (eraseH l k) h = lookupH l h := by
  induction l with
  | nil => rfl
  | cons p t ih =>
    show lookupH (List.filter (fun q => q.1 != k) (p :: t)) h = _
    rw [List.filter_cons]
    by_cases hk : p.1 = k
    · have hb : (p.1 != k) = false := by simp [hk]
      rw [hb]
      have hph : p.1 ≠ h := by rw [hk]; exact fun hh => hne hh.symm
      show lookupH (eraseH t k) h = lookupH (p :: t) h
      rw [ih]
      simp only [lookupH]
      rw [if_neg hph]
    · have hb : (p.1 != k) = true := by simp [hk]
      rw [hb]
      show lookupH (p :: eraseH t k) h = lookupH (p :: t) h
      simp only [lookupH]
      by_cases hph : p.1 = h
      · rw [if_pos hph, if_pos hph]
      · rw [if_neg hph, if_neg hph]
        exact ih

theorem lookupV_mem (l : List (JSVal × Nat)) (v : JSVal) (h : Nat)
    (hl : lookupV l v = some h) : (v, h) ∈ l := by
  induction l with
  | nil => simp [lookupV] at hl
  | cons p t ih =>
    simp only [lookupV] at hl
    by_cases hv : p.1 = v
    · rw [if_pos hv] at hl
      injection hl with hh
      have hp : p = (v, h) := by
        cases p
        simp_all
      rw [hp]
      exact .head _
    · rw [if_neg hv] at hl
      exact .tail _ (ih hl)

theorem lookupH_eq_none_of_forall (l : List (Nat × Entry)) (h : Nat)
    (hf : ∀ q ∈ l, q.1 ≠ h) : lookupH l h = none := by
  induction l with
  | nil => rfl
  | cons p t ih =>
    have hp : p.1 ≠ h := hf p (.head _)
    simp only [lookupH]
    rw [if_neg hp]
    exact ih fun q hq => hf q (.tail _ hq)

/-! ## Handle-table lemmas -/

/-- From `WFb`: a reverse binding has a coherent forward entry. -/
theorem wf_forward (T : HandleTable) (hWF : T.WFb = true) (v : JSVal) (h : Nat)
    (hl : lookupV T.v2h v = some h) :
    ∃ e, lookupH T.h2e h = some e ∧ e.value = v := by
  have hmem := lookupV_mem _ _ _ hl
  have hall := List.all_eq_true.mp hWF (v, h) hmem
  revert hall
  cases he : lookupH T.h2e h with
  | none => simp
  | some e =>
    intro hall
    refine ⟨e, rfl, ?_⟩
    simpa using hall

/-- After any `add`, the returned handle resolves to the added value. -/
theorem add_get (T : HandleTable) (v : JSVal) (hWF : T.WFb = true) :
    (T.add v).2.get (T.add v).1 = v := by
  unfold HandleTable.add
  cases hl : lookupV T.v2h v with
  | some h =>
    obtain ⟨e, he, hev⟩ := wf_forward T hWF v h hl
    simp only [he, HandleTable.get]
    rw [lookupH_setH_self, hev]
  | none =>
    simp only [HandleTable.newEntry, HandleTable.get]
    rw [lookupH_setH_self]

/-- After any `add`, the returned handle has a live entry holding the
added value. -/
theorem add_entry (T : HandleTable) (v : JSVal) (hWF : T.WFb = true) :
    ∃ r : Int, lookupH (T.add v).2.h2e (T.add v).1 = some ⟨v, r⟩ := by
  unfold HandleTable.add
  cases hl : lookupV T.v2h v with
  | some h =>
    obtain ⟨e, he, hev⟩ := wf_forward T hWF v h hl
    refine ⟨e.refs + 1, ?_⟩
    simp only [he]
    rw [lookupH_setH_self, hev]
  | none =>
    exact ⟨1, by simp only [HandleTable.newEntry]; rw [lookupH_setH_self]⟩

/-- `n` successive `incRef h` on the table. -/
def incRefN (T : HandleTable) (h : Nat) : Nat → HandleTable
  | 0 => T
  | n + 1 => (incRefN T h n).incRef h

/-- `n` successive `decRef h` on the table (the table's own operation,
not the guarded bridge one). -/
def decRefN (T : HandleTable) (h : Nat) : Nat → HandleTable
  | 0 => T
  | n + 1 => ((decRefN T h n).decRef h).2

/-- `n` successive guest-facing `emlite_val_dec_ref h`. -/
def valDecRefN (T : HandleTable) (h : Nat) : Nat → HandleTable
  | 0 => T
  | n + 1 => emlite_val_dec_ref (valDecRefN T h n) h

theorem incRefN_entry (T : HandleTable) (h : Nat) (v : JSVal) (r : Int)
    (hl : lookupH T.h2e h = some ⟨v, r⟩) (n : Nat) :
    lookupH (incRefN T h n).h2e h = some ⟨v, r + n⟩ := by
  induction n with
  | zero => simpa using hl
  | succ n ih =>
    show lookupH ((incRefN T h n).incRef h).h2e h = _
    simp only [HandleTable.incRef, ih, lookupH_setH_self, Option.some.injEq,
      Entry.mk.injEq, true_and]
    push_cast
    ring

theorem decRefN_entry (T : HandleTable) (h : Nat) (v : JSVal) (m : Nat)
    (hl : lookupH T.h2e h = some ⟨v, (m : Int) + 1⟩) :
    ∀ k, k ≤ m → lookupH (decRefN T h k).h2e h = some ⟨v, (m : Int) + 1 - k⟩ := by
  intro k
  induction k with
  | zero => intro _; simpa using hl
  | succ k ih =>
    intro hk
    have ihe := ih (by omega)
    show lookupH ((decRefN T h k).decRef h).2.h2e h = _
    have hz : ¬((m : Int) + 1 - k - 1 = 0) := by
      have : (k : Int) < m := by exact_mod_cast hk
      omega
    simp only [HandleTable.decRef, ihe, hz, if_false, lookupH_setH_self,
      Option.some.injEq, Entry.mk.injEq, true_and]
    push_cast
    ring

theorem valDecRefN_reserved_id (T : HandleTable) (h : Nat) (hr : h ≤ 6)
    (n : Nat) : valDecRefN T h n = T := by
  induction n with
  | zero => rfl
  | succ n ih =>
    show emlite_val_dec_ref (valDecRefN T h n) h = T
    rw [ih]
    unfold emlite_val_dec_ref
    rw [if_neg (by omega)]

/-- **C1.** Deduplication of `add`: adding a value equal (as a `Map` key:
same primitive, or identical object/function) to an already-registered
value returns the same handle, increments that entry's refcount, and does
not advance the allocation counter. -/
theorem dedup_add (T : HandleTable) (v : JSVal) (hWF : T.WFb = true) :
    ((T.add v).2.add v).1 = (T.add v).1 ∧
    ((T.add v).2.add v).2.next = (T.add v).2.next ∧
    ∃ r : Int, lookupH (T.add v).2.h2e (T.add v).1 = some ⟨v, r⟩ ∧
      lookupH ((T.add v).2.add v).2.h2e (T.add v).1 = some ⟨v, r + 1⟩ := by
  cases hl : lookupV T.v2h v with
  | some h =>
    obtain ⟨e, he, hev⟩ := wf_forward T hWF v h hl
    simp only [HandleTable.add, hl, he, lookupH_setH_self, hev]
    exact ⟨trivial, trivial, e.refs + 1, rfl, rfl⟩
  | none =>
    simp only [HandleTable.add, HandleTable.newEntry, hl, lookupV_setV_self,
      lookupH_setH_self]
    exact ⟨trivial, trivial, 1, rfl, rfl⟩

/-- **C2.** Ref-count liveness: after a single `add` of a fresh value,
`n` `incRef`s followed by `n+1` of the table's `decRef`s leave the handle
absent (so `get` reports the `undefined` sentinel), while `n` `incRef`s
followed by only `n` `decRef`s leave `get` returning the original value. -/
theorem refcount_liveness (T : HandleTable) (v : JSVal) (n : Nat)
    (hfresh : lookupV T.v2h v = none) :
    lookupH (decRefN (incRefN (T.add v).2 (T.add v).1 n) (T.add v).1 (n + 1)).h2e
      (T.add v).1 = none ∧
    (decRefN (incRefN (T.add v).2 (T.add v).1 n) (T.add v).1 (n + 1)).get
      (T.add v).1 = .undefined ∧
    (decRefN (incRefN (T.add v).2 (T.add v).1 n) (T.add v).1 n).get
      (T.add v).1 = v := by
  have h1 : T.add v = (T.next,
      { h2e := setH T.h2e T.next ⟨v, 1⟩
        v2h := setV T.v2h v T.next
        next := T.next + 1 }) := by
    simp only [HandleTable.add, HandleTable.newEntry, hfresh]
  rw [h1]
  simp only
  have hentry : lookupH (setH T.h2e T.next ⟨v, 1⟩) T.next = some ⟨v, 1⟩ :=
    lookupH_setH_self ..
  set T1 : HandleTable :=
    { h2e := setH T.h2e T.next ⟨v, 1⟩
      v2h := setV T.v2h v T.next
      next := T.next + 1 } with hT1
  have hinc : lookupH (incRefN T1 T.next n).h2e T.next = some ⟨v, (n : Int) + 1⟩ := by
    have := incRefN_entry T1 T.next v 1 hentry n
    rwa [show (1 : Int) + (n : Int) = (n : Int) + 1 by ring] at this
  have hdecn : lookupH (decRefN (incRefN T1 T.next n) T.next n).h2e T.next =
      some ⟨v, 1⟩ := by
    have := decRefN_entry (incRefN T1 T.next n) T.next v n hinc n le_rfl
    rwa [show (n : Int) + 1 - (n : Int) = 1 by ring] at this
  refine ⟨?_, ?_, ?_⟩
  · show lookupH ((decRefN (incRefN T1 T.next n) T.next n).decRef T.next).2.h2e
      T.next = none
    unfold HandleTable.decRef
    rw [hdecn]
    norm_num
    exact lookupH_eraseH_self ..
  · show ((decRefN (incRefN T1 T.next n) T.next n).decRef T.next).2.get
      T.next = .undefined
    unfold HandleTable.decRef
    rw [hdecn]
    norm_num [HandleTable.get]
    rw [lookupH_eraseH_self]
  · show (decRefN (incRefN T1 T.next n) T.next n).get T.next = v
    unfold HandleTable.get
    rw [hdecn]

/-- **C3.** Reserved-handle immutability: any number of guest-facing
`emlite_val_dec_ref` calls on a handle `h ≤ 6` leaves the initial table
unchanged, so `get h` keeps returning the fixed singleton; the guard is
in the bridge operation — the table's own `decRef` does evict a reserved
handle (shown at handle 0). -/
theorem reserved_handles_immutable (h n : Nat) (hr : h ≤ 6) :
    valDecRefN emlite_init_handle_table h n = emlite_init_handle_table ∧
    (valDecRefN emlite_init_handle_table h n).get h = reservedVal h ∧
    (emlite_init_handle_table.decRef 0).2.entry? 0 = none := by
  refine ⟨valDecRefN_reserved_id _ _ hr n, ?_, by decide⟩
  rw [valDecRefN_reserved_id _ _ hr n]
  interval_cases h <;> decide

/-! ## 32-bit wrap lemmas -/

theorem toInt32_eq_self (x : Int) (h1 : -2147483648 ≤ x) (h2 : x < 2147483648) :
    toInt32 x = x := by
  unfold toInt32
  omega

theorem toUint32_eq_self (u : Int) (h1 : 0 ≤ u) (h2 : u < 4294967296) :
    toUint32 u = u := by
  unfold toUint32
  omega

/-- **C5.** 32-bit round-trip: `get_value_int ∘ make_int` is the identity
on `[-2^31, 2^31)`, `get_value_uint ∘ make_uint` is the identity on
`[0, 2^32)`, and `get_value_uint` of `make_int (-1)` is `4294967295`. -/
theorem int32_roundtrip (T : HandleTable) (x u : Int) (hWF : T.WFb = true)
    (hx1 : -2147483648 ≤ x) (hx2 : x < 2147483648)
    (hu1 : 0 ≤ u) (hu2 : u < 4294967296) :
    emlite_val_get_value_int (emlite_val_make_int T x).2
      (emlite_val_make_int T x).1 = x ∧
    emlite_val_get_value_uint (emlite_val_make_uint T u).2
      (emlite_val_make_uint T u).1 = u ∧
    emlite_val_get_value_uint (emlite_val_make_int T (-1)).2
      (emlite_val_make_int T (-1)).1 = 4294967295 := by
  refine ⟨?_, ?_, ?_⟩
  · unfold emlite_val_make_int emlite_val_get_value_int
    rw [toInt32_eq_self x hx1 hx2, add_get T (.num x) hWF]
    exact toInt32_eq_self x hx1 hx2
  · unfold emlite_val_make_uint emlite_val_get_value_uint
    rw [toUint32_eq_self u hu1 hu2, add_get T (.num u) hWF]
    exact toUint32_eq_self u hu1 hu2
  · unfold emlite_val_make_int emlite_val_get_value_uint
    have hm : toInt32 (-1) = -1 := by decide
    rw [hm, add_get T (.num (-1)) hWF]
    decide

/-- **C9.** 64-bit unsigned normalization: `make_biguint` stores the wire
value renormalized into `[0, 2^64)` (adding `2^64` when negative); in
particular `make_biguint (-1)` stores `2^64 - 1`. -/
theorem biguint_normalization (T : HandleTable) (v : Int) (hWF : T.WFb = true)
    (h1 : -9223372036854775808 ≤ v) (h2 : v < 9223372036854775808) :
    (emlite_val_make_biguint T v).2.get (emlite_val_make_biguint T v).1 =
      .bigint (if v < 0 then v + 18446744073709551616 else v) ∧
    0 ≤ (if v < 0 then v + 18446744073709551616 else v) ∧
    (if v < 0 then v + 18446744073709551616 else v) < 18446744073709551616 ∧
    (emlite_val_make_biguint T (-1)).2.get (emlite_val_make_biguint T (-1)).1 =
      .bigint 18446744073709551615 := by
  refine ⟨?_, by split <;> omega, by split <;> omega, ?_⟩
  · unfold emlite_val_make_biguint
    exact add_get T _ hWF
  · unfold emlite_val_make_biguint
    have hif : (if (-1 : Int) < 0 then (-1 : Int) + 18446744073709551616
        else (-1 : Int)) = 18446744073709551615 := by decide
    rw [hif]
    exact add_get T _ hWF

/-! ## Reset lemmas -/

theorem reset_fold_absent (l : List (Nat × Entry)) (acc : HandleTable)
    (hinv : ∀ q ∈ acc.h2e, 6 < q.1 → q.1 ∈ l.map Prod.fst)
    (h : Nat) (hh : 6 < h) :
    lookupH (l.foldl resetStep acc).h2e h = none := by
  induction l generalizing acc with
  | nil =>
    apply lookupH_eq_none_of_forall
    intro q hq
    intro heq
    have := hinv q hq (heq ▸ hh)
    simp at this
  | cons p t ih =>
    show lookupH ((t.foldl resetStep (resetStep acc p))).h2e h = none
    apply ih
    intro q hq hq6
    unfold resetStep at hq
    by_cases hp : 6 < p.1
    · rw [if_pos hp] at hq
      simp only at hq
      obtain ⟨hqa, hqne⟩ := List.mem_filter.mp hq
      have hmem := hinv q hqa hq6
      simp only [List.map_cons, List.mem_cons] at hmem
      rcases hmem with h1 | h2
      · exact absurd h1 (by simpa using hqne)
      · exact h2
    · rw [if_neg hp] at hq
      have hmem := hinv q hq hq6
      simp only [List.map_cons, List.mem_cons] at hmem
      rcases hmem with h1 | h2
      · exact absurd (h1 ▸ hq6) hp
      · exact h2

theorem reset_fold_low (l : List (Nat × Entry)) (acc : HandleTable)
    (h : Nat) (hh : h ≤ 6) :
    lookupH (l.foldl resetStep acc).h2e h = lookupH acc.h2e h := by
  induction l generalizing acc with
  | nil => rfl
  | cons p t ih =>
    show lookupH ((t.foldl resetStep (resetStep acc p))).h2e h = _
    rw [ih]
    unfold resetStep
    by_cases hp : 6 < p.1
    · rw [if_pos hp]
      exact lookupH_filter_ne acc.h2e p.1 h (by omega)
    · rw [if_neg hp]

theorem reset_fold_next (l : List (Nat × Entry)) (acc : HandleTable) :
    (l.foldl resetStep acc).next = acc.next := by
  induction l generalizing acc with
  | nil => rfl
  | cons p t ih =>
    show (t.foldl resetStep (resetStep acc p)).next = _
    rw [ih]
    unfold resetStep
    split <;> rfl

/-- **C6.** Reset semantics: `emlite_reset_object_map` evicts every
handle above 6, leaves entries 0..6 untouched, and does not reset the
allocation counter; a value added afterwards therefore gets handle
`_next`, which (when `_next` bounds all live handles, as it always does)
was never a previously live handle. -/
theorem reset_semantics (T : HandleTable) :
    (∀ h, 6 < h → (emlite_reset_object_map T).entry? h = none) ∧
    (∀ h, h ≤ 6 → (emlite_reset_object_map T).entry? h = T.entry? h) ∧
    (emlite_reset_object_map T).next = T.next ∧
    (∀ v, lookupV (emlite_reset_object_map T).v2h v = none →
      ((emlite_reset_object_map T).add v).1 = T.next) ∧
    ((∀ q ∈ T.h2e, q.1 < T.next) → ∀ q ∈ T.h2e, q.1 ≠ T.next) := by
  refine ⟨?_, ?_, ?_, ?_, ?_⟩
  · intro h hh
    exact reset_fold_absent T.h2e T
      (fun q hq _ => List.mem_map_of_mem Prod.fst hq) h hh
  · intro h hh
    exact reset_fold_low T.h2e T h hh
  · exact reset_fold_next T.h2e T
  · intro v hfresh
    show ((emlite_reset_object_map T).add v).1 = T.next
    unfold HandleTable.add
    rw [hfresh]
    show (emlite_reset_object_map T).next = T.next
    exact reset_fold_next T.h2e T
  · intro hbound q hq
    have := hbound q hq
    omega

/-- **C10.** A handle with no live entry is indistinguishable at the
public interface from reserved handle 1: `get` returns the very value
`undefined` permanently bound to handle 1 (which is live), so every
operation that factors through `get` agrees on the two. -/
theorem stale_get_is_undefined (T : HandleTable) (h : Nat)
    (habs : T.entry? h = none) :
    T.get h = .undefined ∧
    emlite_init_handle_table.entry? 1 = some ⟨.undefined, 1⟩ ∧
    T.get h = emlite_init_handle_table.get 1 ∧
    emlite_val_get_value_int T h =
      emlite_val_get_value_int emlite_init_handle_table 1 ∧
    emlite_val_get_value_uint T h =
      emlite_val_get_value_uint emlite_init_handle_table 1 ∧
    emlite_val_not T h = emlite_val_not emlite_init_handle_table 1 ∧
    emlite_val_is_string T h = emlite_val_is_string emlite_init_handle_table 1 := by
  have hg : T.get h = .undefined := by
    unfold HandleTable.entry? at habs
    unfold HandleTable.get
    rw [habs]
  refine ⟨hg, by decide, ?_, ?_, ?_, ?_, ?_⟩
  · rw [hg]; decide
  · unfold emlite_val_get_value_int
    rw [hg]; decide
  · unfold emlite_val_get_value_uint
    rw [hg]; decide
  · unfold emlite_val_not
    rw [hg]; decide
  · unfold emlite_val_is_string
    rw [hg]; decide

/-! ## Witnesses -/

/-- Witness for C1 at the initial table and `42`. -/
theorem dedup_add_witness :
    HandleTable.WFb emlite_init_handle_table = true ∧
    (((emlite_init_handle_table.add (.num 42)).2.add (.num 42)).1 =
        (emlite_init_handle_table.add (.num 42)).1 ∧
      ((emlite_init_handle_table.add (.num 42)).2.add (.num 42)).2.next =
        (emlite_init_handle_table.add (.num 42)).2.next ∧
      ∃ r : Int, lookupH (emlite_init_handle_table.add (.num 42)).2.h2e
          (emlite_init_handle_table.add (.num 42)).1 = some ⟨.num 42, r⟩ ∧
        lookupH ((emlite_init_handle_table.add (.num 42)).2.add (.num 42)).2.h2e
          (emlite_init_handle_table.add (.num 42)).1 = some ⟨.num 42, r + 1⟩) :=
  ⟨by decide, dedup_add emlite_init_handle_table (.num 42) (by decide)⟩

/-- Witness for C2 at the initial table, `7`, and `n = 2`. -/
theorem refcount_liveness_witness :
    lookupV emlite_init_handle_table.v2h (.num 7) = none ∧
    (lookupH (decRefN (incRefN (emlite_init_handle_table.add (.num 7)).2
        (emlite_init_handle_table.add (.num 7)).1 2)
        (emlite_init_handle_table.add (.num 7)).1 3).h2e
        (emlite_init_handle_table.add (.num 7)).1 = none ∧
      (decRefN (incRefN (emlite_init_handle_table.add (.num 7)).2
        (emlite_init_handle_table.add (.num 7)).1 2)
        (emlite_init_handle_table.add (.num 7)).1 3).get
        (emlite_init_handle_table.add (.num 7)).1 = .undefined ∧
      (decRefN (incRefN (emlite_init_handle_table.add (.num 7)).2
        (emlite_init_handle_table.add (.num 7)).1 2)
        (emlite_init_handle_table.add (.num 7)).1 2).get
        (emlite_init_handle_table.add (.num 7)).1 = .num 7) :=
  ⟨by decide, refcount_liveness emlite_init_handle_table (.num 7) 2 (by decide)⟩

/-- Witness for C3 at handle 3 and `n = 5`. -/
theorem reserved_handles_immutable_witness :
    (3 : Nat) ≤ 6 ∧
    (valDecRefN emlite_init_handle_table 3 5 = emlite_init_handle_table ∧
      (valDecRefN emlite_init_handle_table 3 5).get 3 = reservedVal 3 ∧
      (emlite_init_handle_table.decRef 0).2.entry? 0 = none) :=
  ⟨by decide, reserved_handles_immutable 3 5 (by decide)⟩

/-- Witness for C5 at the initial table, `x = -5`, `u = 4294967290`. -/
theorem int32_roundtrip_witness :
    HandleTable.WFb emlite_init_handle_table = true ∧
    (emlite_val_get_value_int
        (emlite_val_make_int emlite_init_handle_table (-5)).2
        (emlite_val_make_int emlite_init_handle_table (-5)).1 = -5 ∧
      emlite_val_get_value_uint
        (emlite_val_make_uint emlite_init_handle_table 4294967290).2
        (emlite_val_make_uint emlite_init_handle_table 4294967290).1 =
          4294967290 ∧
      emlite_val_get_value_uint
        (emlite_val_make_int emlite_init_handle_table (-1)).2
        (emlite_val_make_int emlite_init_handle_table (-1)).1 = 4294967295) :=
  ⟨by decide, int32_roundtrip emlite_init_handle_table (-5) 4294967290
    (by decide) (by decide) (by decide) (by decide) (by decide)⟩

/-- Witness for C9 at the initial table and `v = -1`. -/
theorem biguint_normalization_witness :
    HandleTable.WFb emlite_init_handle_table = true ∧
    ((emlite_val_make_biguint emlite_init_handle_table (-1)).2.get
        (emlite_val_make_biguint emlite_init_handle_table (-1)).1 =
        .bigint (if (-1 : Int) < 0 then (-1 : Int) + 18446744073709551616
          else (-1 : Int)) ∧
      0 ≤ (if (-1 : Int) < 0 then (-1 : Int) + 18446744073709551616
        else (-1 : Int)) ∧
      (if (-1 : Int) < 0 then (-1 : Int) + 18446744073709551616
        else (-1 : Int)) < 18446744073709551616 ∧
      (emlite_val_make_biguint emlite_init_handle_table (-1)).2.get
        (emlite_val_make_biguint emlite_init_handle_table (-1)).1 =
        .bigint 18446744073709551615) :=
  ⟨by decide, biguint_normalization emlite_init_handle_table (-1)
    (by decide) (by decide) (by decide)⟩

/-- Witness for C6 at the initial table extended with handle 7. -/
theorem reset_semantics_witness :
    (emlite_reset_object_map
        (emlite_init_handle_table.add (.num 42)).2).entry? 7 = none ∧
    (emlite_reset_object_map
        (emlite_init_handle_table.add (.num 42)).2).entry? 3 =
      (emlite_init_handle_table.add (.num 42)).2.entry? 3 ∧
    (emlite_reset_object_map (emlite_init_handle_table.add (.num 42)).2).next =
      (emlite_init_handle_table.add (.num 42)).2.next :=
  ⟨(reset_semantics (emlite_init_handle_table.add (.num 42)).2).1 7 (by decide),
    (reset_semantics (emlite_init_handle_table.add (.num 42)).2).2.1 3 (by decide),
    (reset_semantics (emlite_init_handle_table.add (.num 42)).2).2.2.1⟩

/-- Witness for C10 at the initial table and stale handle 99. -/
theorem stale_get_is_undefined_witness :
    emlite_init_handle_table.entry? 99 = none ∧
    (emlite_init_handle_table.get 99 = .undefined ∧
      emlite_init_handle_table.entry? 1 = some ⟨.undefined, 1⟩ ∧
      emlite_init_handle_table.get 99 = emlite_init_handle_table.get 1 ∧
      emlite_val_get_value_int emlite_init_handle_table 99 =
        emlite_val_get_value_int emlite_init_handle_table 1 ∧
      emlite_val_get_value_uint emlite_init_handle_table 99 =
        emlite_val_get_value_uint emlite_init_handle_table 1 ∧
      emlite_val_not emlite_init_handle_table 99 =
        emlite_val_not emlite_init_handle_table 1 ∧
      emlite_val_is_string emlite_init_handle_table 99 =
        emlite_val_is_string emlite_init_handle_table 1) :=
  ⟨by decide, stale_get_is_undefined emlite_init_handle_table 99 (by decide)⟩

/-! ## C4: dispatch failure containment -/

/-- **C4 (amended).** Dispatch failure containment: when the
argument-list handle resolves to an array and the guarded host dispatch
of a method call, constructor call, or free-function call throws, the
operation returns (`.ok`) a handle registered to `normalizeThrown` of
the thrown value instead of propagating; the normalized value is an
error carrying the original message, and — when the thrown value is not
already an error — the thrown value's `name`/`code` when present and the
thrown value itself as the attached `cause`; a thrown value that is
already an error is registered unchanged (no cause is attached to it).
When the argument-list handle does *not* resolve to an array, the
unmarshal step runs outside the `try` and the raw `TypeError`
propagates uncaught instead of a handle being returned. -/
theorem dispatch_failure_containment
    (applyMethod : JSVal → String → List JSVal → Except JSVal JSVal)
    (construct applyFn : JSVal → List JSVal → Except JSVal JSVal)
    (T : HandleTable) (objRef argvRef : Nat) (method : String) (e : JSVal)
    (hWF : T.WFb = true) :
    (∀ es, T.get argvRef = .arr es →
      applyMethod (T.get objRef) method (es.map T.getNum) = .error e →
      resultValue (emlite_val_obj_call applyMethod T objRef method argvRef) =
        some (normalizeThrown e)) ∧
    (∀ es, T.get argvRef = .arr es →
      construct (T.get objRef) (es.map T.getNum) = .error e →
      resultValue (emlite_val_construct_new construct T objRef argvRef) =
        some (normalizeThrown e)) ∧
    (∀ es, T.get argvRef = .arr es →
      applyFn (T.get objRef) (es.map T.getNum) = .error e →
      resultValue (emlite_val_func_call applyFn T objRef argvRef) =
        some (normalizeThrown e)) ∧
    (isArrVal (T.get argvRef) = false →
      emlite_val_obj_call applyMethod T objRef method argvRef =
        .error argvFaultError ∧
      emlite_val_construct_new construct T objRef argvRef =
        .error argvFaultError ∧
      emlite_val_func_call applyFn T objRef argvRef =
        .error argvFaultError) ∧
    isErrorVal (normalizeThrown e) = true ∧
    (isErrorVal e = true → normalizeThrown e = e) ∧
    (isErrorVal e = false →
      errMessage (normalizeThrown e) = some (jsToString e) ∧
      errCause (normalizeThrown e) = some e) ∧
    (∀ id hn nv hc cv, e = .obj id hn nv hc cv →
      errName (normalizeThrown e) = some (if hn then nv else .str "Error") ∧
      errCode (normalizeThrown e) = (if hc then some cv else none)) := by
  refine ⟨?_, ?_, ?_, ?_, ?_, ?_, ?_, ?_⟩
  · intro es hargv hd
    simp only [emlite_val_obj_call, hargv, hd, resultValue]
    exact congrArg some (add_get T _ hWF)
  · intro es hargv hd
    simp only [emlite_val_construct_new, hargv, hd, resultValue]
    exact congrArg some (add_get T _ hWF)
  · intro es hargv hd
    simp only [emlite_val_func_call, hargv, hd, resultValue]
    exact congrArg some (add_get T _ hWF)
  · intro hna
    cases hv : T.get argvRef
    case arr es =>
      rw [hv] at hna
      simp [isArrVal] at hna
    all_goals
      refine ⟨?_, ?_, ?_⟩ <;>
        simp [emlite_val_obj_call, emlite_val_construct_new,
          emlite_val_func_call, hv]
  · cases e <;> rfl
  · cases e <;> simp [isErrorVal, normalizeThrown]
  · cases e <;> intro hne <;> first
      | exact ⟨rfl, rfl⟩
      | simp [isErrorVal] at hne
  · intro id hn nv hc cv heq
    subst heq
    exact ⟨rfl, by cases hc <;> rfl⟩

/-- **C4 counterexample.** At a call whose argv handle (7) holds an
empty argument array, with the dispatch throwing a value that is already
an `Error` (with no `cause` of its own): the operation registers that
error unchanged, and its `cause` is absent — not the original thrown
value, contradicting the claim's "carries … the original thrown value as
the attached cause". -/
theorem dispatch_failure_counterexample :
    resultValue (emlite_val_obj_call
        (fun _ _ _ => .error
          (.error "boom" (.str "Error") false .undefined false .undefined))
        (emlite_init_handle_table.add (.arr [])).2 4 "m" 7) =
      some (.error "boom" (.str "Error") false .undefined false .undefined) ∧
    errCause (.error "boom" (.str "Error") false .undefined false .undefined) =
      none := by
  exact ⟨by decide, rfl⟩

/-- Witness for C4 (amended): an array-valued argv handle with a thrown
non-error string. -/
theorem dispatch_failure_containment_witness :
    resultValue (emlite_val_obj_call (fun _ _ _ => .error (.str "oops"))
        (emlite_init_handle_table.add (.arr [])).2 4 "m" 7) =
      some (normalizeThrown (.str "oops")) ∧
    errMessage (normalizeThrown (.str "oops")) =
      some (jsToString (.str "oops")) ∧
    errCause (normalizeThrown (.str "oops")) = some (.str "oops") ∧
    emlite_val_obj_call (fun _ _ _ => .error (.str "oops"))
      (emlite_init_handle_table.add (.arr [])).2 4 "m" 0 =
      .error argvFaultError :=
  ⟨(dispatch_failure_containment (fun _ _ _ => .error (.str "oops"))
      (fun _ _ => .error (.str "oops")) (fun _ _ => .error (.str "oops"))
      (emlite_init_handle_table.add (.arr [])).2 4 7 "m" (.str "oops")
      (by decide)).1 [] (by decide) rfl,
    ((dispatch_failure_containment (fun _ _ _ => .error (.str "oops"))
      (fun _ _ => .error (.str "oops")) (fun _ _ => .error (.str "oops"))
      (emlite_init_handle_table.add (.arr [])).2 4 7 "m" (.str "oops")
      (by decide)).2.2.2.2.2.2.1 rfl).1,
    ((dispatch_failure_containment (fun _ _ _ => .error (.str "oops"))
      (fun _ _ => .error (.str "oops")) (fun _ _ => .error (.str "oops"))
      (emlite_init_handle_table.add (.arr [])).2 4 7 "m" (.str "oops")
      (by decide)).2.2.2.2.2.2.1 rfl).2,
    ((dispatch_failure_containment (fun _ _ _ => .error (.str "oops"))
      (fun _ _ => .error (.str "oops")) (fun _ _ => .error (.str "oops"))
      (emlite_init_handle_table.add (.arr [])).2 4 0 "m" (.str "oops")
      (by decide)).2.2.2.1 (by decide)).1⟩

/-! ## Memory read/write lemmas -/

theorem writeBytes_get_lt (bs : List Nat) (m : Nat → Nat) (p q : Nat)
    (h : q < p) : writeBytes m p bs q = m q := by
  induction bs generalizing m p with
  | nil => rfl
  | cons b bs ih =>
    show writeBytes (fun r => if r = p then b else m r) (p + 1) bs q = m q
    rw [ih _ _ (by omega)]
    show (if q = p then b else m q) = m q
    rw [if_neg (by omega)]

theorem readBytes_writeBytes (bs extra : List Nat) (m : Nat → Nat) (p : Nat) :
    readBytes (writeBytes m p (bs ++ extra)) p bs.length = bs := by
  induction bs generalizing m p with
  | nil => rfl
  | cons b bs ih =>
    show readBytes (writeBytes m p (b :: (bs ++ extra))) p (bs.length + 1) =
      b :: bs
    show writeBytes (fun r => if r = p then b else m r) (p + 1) (bs ++ extra) p ::
      readBytes (writeBytes (fun r => if r = p then b else m r) (p + 1)
        (bs ++ extra)) (p + 1) bs.length = b :: bs
    rw [writeBytes_get_lt _ _ _ _ (by omega), ih]
    simp

/-! ## 16-bit code-unit serialization lemmas -/

theorem u16leBytes_append (xs ys : List Nat) :
    u16leBytes (xs ++ ys) = u16leBytes xs ++ u16leBytes ys := by
  induction xs with
  | nil => rfl
  | cons x xs ih =>
    show x % 256 :: x / 256 :: u16leBytes (xs ++ ys) = _
    rw [ih]
    rfl

theorem u16leBytes_length (xs : List Nat) :
    (u16leBytes xs).length = xs.length * 2 := by
  induction xs with
  | nil => rfl
  | cons x xs ih =>
    show (u16leBytes xs).length + 1 + 1 = (xs.length + 1) * 2
    omega

theorem bytesToU16_u16leBytes (us : List Nat) :
    bytesToU16 (u16leBytes us) = us := by
  induction us with
  | nil => rfl
  | cons u us ih =>
    show bytesToU16 (u % 256 :: u / 256 :: u16leBytes us) = u :: us
    show (u % 256 + u / 256 * 256) :: bytesToU16 (u16leBytes us) = u :: us
    rw [ih]
    congr 1
    omega

/-! ## Codec round-trip lemmas -/

/-- Every character's code point is a Unicode scalar value. -/
theorem char_toNat_valid (c : Char) :
    c.toNat < 0xD800 ∨ (0xDFFF < c.toNat ∧ c.toNat < 0x110000) := by
  rcases c.valid with h | ⟨h1, h2⟩
  · left
    have : c.val.toNat < (0xd800 : UInt32).toNat := by exact_mod_cast h
    simpa using this
  · right
    constructor
    · have : (0xdfff : UInt32).toNat < c.val.toNat := by exact_mod_cast h1
      simpa using this
    · have : c.val.toNat < (0x110000 : UInt32).toNat := by exact_mod_cast h2
      simpa using this

theorem utf8DecodeF_encChar (c : Char) (l : List Nat) (fuel : Nat) :
    utf8DecodeF (fuel + 1) (utf8Char c.toNat ++ l) = c :: utf8DecodeF fuel l := by
  have hv := char_toNat_valid c
  have hup : c.toNat < 0x110000 := by omega
  by_cases h1 : c.toNat < 0x80
  · have e1 : utf8Char c.toNat = [c.toNat] := by
      unfold utf8Char
      rw [if_pos h1]
    rw [e1]
    show utf8DecodeF (fuel + 1) (c.toNat :: l) = _
    simp only [utf8DecodeF, eq_true h1, ite_true, Char.ofNat_toNat]
  · by_cases h2 : c.toNat < 0x800
    · have e1 : utf8Char c.toNat =
          [0xC0 + c.toNat / 0x40, 0x80 + c.toNat % 0x40] := by
        unfold utf8Char
        rw [if_neg h1, if_pos h2]
      rw [e1]
      show utf8DecodeF (fuel + 1)
        ((0xC0 + c.toNat / 0x40) :: (0x80 + c.toNat % 0x40) :: l) = _
      have g1 : (0xC0 + c.toNat / 0x40 < 0x80) = False := eq_false (by omega)
      have g2 : (0xC0 + c.toNat / 0x40 < 0xC0) = False := eq_false (by omega)
      have g3 : (0xC0 + c.toNat / 0x40 < 0xE0) = True := eq_true (by omega)
      have gc : isCont (0x80 + c.toNat % 0x40) = true := by
        unfold isCont
        simp only [Bool.and_eq_true, decide_eq_true_eq]
        omega
      have hval : (0xC0 + c.toNat / 0x40 - 0xC0) * 0x40 +
          (0x80 + c.toNat % 0x40 - 0x80) = c.toNat := by omega
      simp only [utf8DecodeF, g1, g2, g3, ite_true, ite_false, gc, hval,
        Char.ofNat_toNat]
    · by_cases h3 : c.toNat < 0x10000
      · have e1 : utf8Char c.toNat = [0xE0 + c.toNat / 0x1000,
            0x80 + c.toNat / 0x40 % 0x40, 0x80 + c.toNat % 0x40] := by
          unfold utf8Char
          rw [if_neg h1, if_neg h2, if_pos h3]
        rw [e1]
        show utf8DecodeF (fuel + 1) ((0xE0 + c.toNat / 0x1000) ::
          (0x80 + c.toNat / 0x40 % 0x40) :: (0x80 + c.toNat % 0x40) :: l) = _
        have g1 : (0xE0 + c.toNat / 0x1000 < 0x80) = False := eq_false (by omega)
        have g2 : (0xE0 + c.toNat / 0x1000 < 0xC0) = False := eq_false (by omega)
        have g3 : (0xE0 + c.toNat / 0x1000 < 0xE0) = False := eq_false (by omega)
        have g4 : (0xE0 + c.toNat / 0x1000 < 0xF0) = True := eq_true (by omega)
        have gc1 : isCont (0x80 + c.toNat / 0x40 % 0x40) = true := by
          unfold isCont
          simp only [Bool.and_eq_true, decide_eq_true_eq]
          omega
        have gc2 : isCont (0x80 + c.toNat % 0x40) = true := by
          unfold isCont
          simp only [Bool.and_eq_true, decide_eq_true_eq]
          omega
        have hval : (0xE0 + c.toNat / 0x1000 - 0xE0) * 0x1000 +
            (0x80 + c.toNat / 0x40 % 0x40 - 0x80) * 0x40 +
            (0x80 + c.toNat % 0x40 - 0x80) = c.toNat := by omega
        simp only [utf8DecodeF, g1, g2, g3, g4, ite_true, ite_false, gc1, gc2,
          Bool.and_self, hval, Char.ofNat_toNat]
      · have e1 : utf8Char c.toNat = [0xF0 + c.toNat / 0x40000,
            0x80 + c.toNat / 0x1000 % 0x40, 0x80 + c.toNat / 0x40 % 0x40,
            0x80 + c.toNat % 0x40] := by
          unfold utf8Char
          rw [if_neg h1, if_neg h2, if_neg h3]
        rw [e1]
        show utf8DecodeF (fuel + 1) ((0xF0 + c.toNat / 0x40000) ::
          (0x80 + c.toNat / 0x1000 % 0x40) :: (0x80 + c.toNat / 0x40 % 0x40) ::
          (0x80 + c.toNat % 0x40) :: l) = _
        have g1 : (0xF0 + c.toNat / 0x40000 < 0x80) = False := eq_false (by omega)
        have g2 : (0xF0 + c.toNat / 0x40000 < 0xC0) = False := eq_false (by omega)
        have g3 : (0xF0 + c.toNat / 0x40000 < 0xE0) = False := eq_false (by omega)
        have g4 : (0xF0 + c.toNat / 0x40000 < 0xF0) = False := eq_false (by omega)
        have gc1 : isCont (0x80 + c.toNat / 0x1000 % 0x40) = true := by
          unfold isCont
          simp only [Bool.and_eq_true, decide_eq_true_eq]
          omega
        have gc2 : isCont (0x80 + c.toNat / 0x40 % 0x40) = true := by
          unfold isCont
          simp only [Bool.and_eq_true, decide_eq_true_eq]
          omega
        have gc3 : isCont (0x80 + c.toNat % 0x40) = true := by
          unfold isCont
          simp only [Bool.and_eq_true, decide_eq_true_eq]
          omega
        have hval : (0xF0 + c.toNat / 0x40000 - 0xF0) * 0x40000 +
            (0x80 + c.toNat / 0x1000 % 0x40 - 0x80) * 0x1000 +
            (0x80 + c.toNat / 0x40 % 0x40 - 0x80) * 0x40 +
            (0x80 + c.toNat % 0x40 - 0x80) = c.toNat := by omega
        simp only [utf8DecodeF, g1, g2, g3, g4, ite_true, ite_false, gc1, gc2,
          gc3, Bool.and_self, hval, Char.ofNat_toNat]

theorem utf16DecodeF_encChar (c : Char) (l : List Nat) (fuel : Nat) :
    utf16DecodeF (fuel + 1) (utf16Char c.toNat ++ l) =
      c :: utf16DecodeF fuel l := by
  have hv := char_toNat_valid c
  by_cases h1 : c.toNat < 0x10000
  · have e1 : utf16Char c.toNat = [c.toNat] := by
      unfold utf16Char
      rw [if_pos h1]
    rw [e1]
    show utf16DecodeF (fuel + 1) (c.toNat :: l) = _
    have g1 : (0xD800 ≤ c.toNat ∧ c.toNat < 0xDC00) = False := eq_false (by omega)
    have g2 : (0xDC00 ≤ c.toNat ∧ c.toNat < 0xE000) = False := eq_false (by omega)
    simp only [utf16DecodeF, g1, g2, ite_false, Char.ofNat_toNat]
  · have hup : c.toNat < 0x110000 := by omega
    have e1 : utf16Char c.toNat = [0xD800 + (c.toNat - 0x10000) / 0x400,
        0xDC00 + (c.toNat - 0x10000) % 0x400] := by
      unfold utf16Char
      rw [if_neg h1]
    rw [e1]
    show utf16DecodeF (fuel + 1) ((0xD800 + (c.toNat - 0x10000) / 0x400) ::
      (0xDC00 + (c.toNat - 0x10000) % 0x400) :: l) = _
    have g1 : (0xD800 ≤ 0xD800 + (c.toNat - 0x10000) / 0x400 ∧
        0xD800 + (c.toNat - 0x10000) / 0x400 < 0xDC00) = True :=
      eq_true (by omega)
    have g2 : (0xDC00 ≤ 0xDC00 + (c.toNat - 0x10000) % 0x400 ∧
        0xDC00 + (c.toNat - 0x10000) % 0x400 < 0xE000) = True :=
      eq_true (by omega)
    have hval : 0x10000 +
        (0xD800 + (c.toNat - 0x10000) / 0x400 - 0xD800) * 0x400 +
        (0xDC00 + (c.toNat - 0x10000) % 0x400 - 0xDC00) = c.toNat := by omega
    simp only [utf16DecodeF, g1, g2, ite_true, hval, Char.ofNat_toNat]

theorem utf8DecodeF_nil (fuel : Nat) : utf8DecodeF fuel [] = [] := by
  cases fuel <;> rfl

theorem utf16DecodeF_nil (fuel : Nat) : utf16DecodeF fuel [] = [] := by
  cases fuel <;> rfl

theorem utf8DecodeF_enc (cs : List Char) (l : List Nat) (fuel : Nat) :
    utf8DecodeF (fuel + cs.length) (utf8Encode cs ++ l) =
      cs ++ utf8DecodeF fuel l := by
  induction cs generalizing fuel with
  | nil => rfl
  | cons c cs ih =>
    show utf8DecodeF (fuel + (cs.length + 1))
      ((utf8Char c.toNat ++ utf8Encode cs) ++ l) = _
    rw [List.append_assoc]
    have hf : fuel + (cs.length + 1) = (fuel + cs.length) + 1 := by omega
    rw [hf, utf8DecodeF_encChar, ih]
    rfl

theorem utf16DecodeF_enc (cs : List Char) (l : List Nat) (fuel : Nat) :
    utf16DecodeF (fuel + cs.length) (utf16Encode cs ++ l) =
      cs ++ utf16DecodeF fuel l := by
  induction cs generalizing fuel with
  | nil => rfl
  | cons c cs ih =>
    show utf16DecodeF (fuel + (cs.length + 1))
      ((utf16Char c.toNat ++ utf16Encode cs) ++ l) = _
    rw [List.append_assoc]
    have hf : fuel + (cs.length + 1) = (fuel + cs.length) + 1 := by omega
    rw [hf, utf16DecodeF_encChar, ih]
    rfl

theorem utf8Char_length_pos (n : Nat) : 1 ≤ (utf8Char n).length := by
  unfold utf8Char
  split_ifs <;> simp

theorem utf16Char_length_pos (n : Nat) : 1 ≤ (utf16Char n).length := by
  unfold utf16Char
  split_ifs <;> simp

theorem length_le_utf8Encode (cs : List Char) :
    cs.length ≤ (utf8Encode cs).length := by
  induction cs with
  | nil => simp [utf8Encode]
  | cons c cs ih =>
    show cs.length + 1 ≤ (utf8Char c.toNat ++ utf8Encode cs).length
    rw [List.length_append]
    have := utf8Char_length_pos c.toNat
    omega

theorem length_le_utf16Encode (cs : List Char) :
    cs.length ≤ (utf16Encode cs).length := by
  induction cs with
  | nil => simp [utf16Encode]
  | cons c cs ih =>
    show cs.length + 1 ≤ (utf16Char c.toNat ++ utf16Encode cs).length
    rw [List.length_append]
    have := utf16Char_length_pos c.toNat
    omega

/-- `dec.decode ∘ enc.encode` is the identity on strings. -/
theorem utf8_roundtrip (s : String) : utf8Decode (utf8Bytes s) = s.data := by
  unfold utf8Decode utf8Bytes
  have hlen := length_le_utf8Encode s.data
  have hsplit : (utf8Encode s.data).length =
      ((utf8Encode s.data).length - s.data.length) + s.data.length := by omega
  rw [hsplit]
  have h := utf8DecodeF_enc s.data []
    ((utf8Encode s.data).length - s.data.length)
  rw [List.append_nil] at h
  rw [h, utf8DecodeF_nil, List.append_nil]

/-- utf-16le decoding of a string's code units is the identity. -/
theorem utf16_roundtrip (s : String) : utf16Decode (utf16Units s) = s.data := by
  unfold utf16Decode utf16Units
  have hlen := length_le_utf16Encode s.data
  have hsplit : (utf16Encode s.data).length =
      ((utf16Encode s.data).length - s.data.length) + s.data.length := by omega
  rw [hsplit]
  have h := utf16DecodeF_enc s.data []
    ((utf16Encode s.data).length - s.data.length)
  rw [List.append_nil] at h
  rw [h, utf16DecodeF_nil, List.append_nil]

theorem guard_false_of_ne_empty (s : String) (hemp : ¬s = "") :
    (jsFalsy (.str s) || !isStringVal (.str s)) = false := by
  simp only [jsFalsy, isStringVal, Bool.not_true, Bool.or_false]
  cases hbe : s.isEmpty with
  | false => rfl
  | true => exact absurd ((String.isEmpty_iff s).mp hbe) hemp

/-- **C8.** String round-trip: with the guest allocator present, a
successful `copyStringToWasm` write decodes back through `cStr` to the
same string, and a successful `copyStringToWasmUtf16` write decodes back
through `cStrUtf16` code-unit-for-code-unit (the lengths being the byte
length of the encoded text and the code-unit count respectively). -/
theorem string_roundtrip (E : GuestMem) (s : String) (ptr : Nat)
    (E' : GuestMem) (hm : E.mallocPresent = true) :
    (copyStringToWasm E (.str s) = .ok (ptr, E') →
      cStr E' ptr (utf8Bytes s).length = s) ∧
    (copyStringToWasmUtf16 E (.str s) = .ok (ptr, E') →
      cStrUtf16 E' ptr (utf16Units s).length = s) := by
  constructor
  · intro h
    by_cases hemp : s = ""
    · subst hemp
      have hred : copyStringToWasm E (.str "") = .ok (0, E) := rfl
      rw [hred] at h
      injection h with h2
      injection h2 with hp hE
      subst hp
      subst hE
      rfl
    · have hfal := guard_false_of_ne_empty s hemp
      simp only [copyStringToWasm, hfal, Bool.false_eq_true, if_false, hm,
        if_true] at h
      by_cases hp0 : E.malloc (utf8Bytes s ++ [0]).length = 0
      · rw [if_pos hp0] at h
        exact absurd h (by simp)
      · rw [if_neg hp0] at h
        injection h with h2
        injection h2 with hp hE
        subst hp
        subst hE
        unfold cStr
        show String.mk (utf8Decode (readBytes
          (writeBytes E.mem (E.malloc (utf8Bytes s ++ [0]).length)
            (utf8Bytes s ++ [0]))
          (E.malloc (utf8Bytes s ++ [0]).length) (utf8Bytes s).length)) = s
        rw [readBytes_writeBytes (utf8Bytes s) [0] E.mem _]
        rw [utf8_roundtrip]
  · intro h
    by_cases hemp : s = ""
    · subst hemp
      have hred : copyStringToWasmUtf16 E (.str "") = .ok (0, E) := rfl
      rw [hred] at h
      injection h with h2
      injection h2 with hp hE
      subst hp
      subst hE
      rfl
    · have hfal := guard_false_of_ne_empty s hemp
      simp only [copyStringToWasmUtf16, hfal, Bool.false_eq_true, if_false, hm,
        if_true] at h
      by_cases hp0 : E.malloc (((utf16Units s).length + 1) * 2) = 0
      · rw [if_pos hp0] at h
        exact absurd h (by simp)
      · rw [if_neg hp0] at h
        by_cases hal : E.malloc (((utf16Units s).length + 1) * 2) % 2 ≠ 0
        · rw [if_pos hal] at h
          exact absurd h (by simp)
        · rw [if_neg hal] at h
          injection h with h2
          injection h2 with hp hE
          subst hp
          subst hE
          unfold cStrUtf16
          show String.mk (utf16Decode (bytesToU16 (readBytes
            (writeBytes E.mem (E.malloc (((utf16Units s).length + 1) * 2))
              (u16leBytes (utf16Units s ++ [0])))
            (E.malloc (((utf16Units s).length + 1) * 2))
            ((utf16Units s).length * 2)))) = s
          rw [u16leBytes_append]
          have hlen : (utf16Units s).length * 2 =
              (u16leBytes (utf16Units s)).length := by
            rw [u16leBytes_length]
          rw [hlen, readBytes_writeBytes (u16leBytes (utf16Units s))
            (u16leBytes [0]) E.mem _]
          rw [bytesToU16_u16leBytes, utf16_roundtrip]

/-- Witness for C8 with `s = "ab"` and a concrete allocator. -/
theorem string_roundtrip_witness :
    cStr ⟨true, fun _ => 2,
        writeBytes (fun _ => 0) 2 (utf8Bytes "ab" ++ [0])⟩ 2
      (utf8Bytes "ab").length = "ab" ∧
    cStrUtf16 ⟨true, fun _ => 2,
        writeBytes (fun _ => 0) 2 (u16leBytes (utf16Units "ab" ++ [0]))⟩ 2
      (utf16Units "ab").length = "ab" :=
  ⟨(string_roundtrip ⟨true, fun _ => 2, fun _ => 0⟩ "ab" 2 _ rfl).1 rfl,
    (string_roundtrip ⟨true, fun _ => 2, fun _ => 0⟩ "ab" 2 _ rfl).2 rfl⟩

/-- **C7 (amended).** Allocation failure behaviour of the string write
paths: when the allocator is present but returns a null pointer, the
operation throws an explicit error; when the allocator is *absent*, the
operation silently returns the null pointer 0 instead of failing. -/
theorem allocation_failure_explicit (E : GuestMem) (s : String)
    (hemp : ¬s = "") :
    (E.mallocPresent = false →
      copyStringToWasm E (.str s) = .ok (0, E) ∧
      copyStringToWasmUtf16 E (.str s) = .ok (0, E)) ∧
    (E.mallocPresent = true →
      E.malloc (utf8Bytes s ++ [0]).length = 0 →
      copyStringToWasm E (.str s) =
        .error "malloc failed in copyStringToWasm") ∧
    (E.mallocPresent = true →
      E.malloc (((utf16Units s).length + 1) * 2) = 0 →
      copyStringToWasmUtf16 E (.str s) =
        .error "malloc failed in copyStringToWasmUtf16") := by
  have hfal := guard_false_of_ne_empty s hemp
  refine ⟨?_, ?_, ?_⟩
  · intro hm
    constructor
    · simp only [copyStringToWasm, hfal, Bool.false_eq_true, if_false, hm]
    · simp only [copyStringToWasmUtf16, hfal, Bool.false_eq_true, if_false, hm]
  · intro hm hz
    simp only [copyStringToWasm, hfal, Bool.false_eq_true, if_false, hm,
      if_true, hz, ite_true]
  · intro hm hz
    simp only [copyStringToWasmUtf16, hfal, Bool.false_eq_true, if_false, hm,
      if_true, hz, ite_true]

/-- **C7 counterexample.** With the allocator absent, `copyStringToWasm`
silently succeeds with pointer 0 — it does not fail with an explicit
error as the claim states. -/
theorem allocation_failure_counterexample :
    copyStringToWasm ⟨false, fun _ => 0, fun _ => 0⟩ (.str "x") =
      .ok (0, ⟨false, fun _ => 0, fun _ => 0⟩) ∧
    (⟨false, fun _ => 0, fun _ => 0⟩ : GuestMem).mallocPresent = false :=
  ⟨rfl, rfl⟩

/-- Witness for C7 (amended) with a null-returning allocator. -/
theorem allocation_failure_explicit_witness :
    copyStringToWasm ⟨true, fun _ => 0, fun _ => 0⟩ (.str "x") =
      .error "malloc failed in copyStringToWasm" ∧
    copyStringToWasmUtf16 ⟨true, fun _ => 0, fun _ => 0⟩ (.str "x") =
      .error "malloc failed in copyStringToWasmUtf16" :=
  ⟨(allocation_failure_explicit ⟨true, fun _ => 0, fun _ => 0⟩ "x"
      (by decide)).2.1 rfl rfl,
    (allocation_failure_explicit ⟨true, fun _ => 0, fun _ => 0⟩ "x"
      (by decide)).2.2 rfl rfl⟩

end Emlite
